import Mathlib

/-!
Shallow embedding of the malaysian-name-ethnicity-classifier repository.

Source files modelled:
- `src/config.py`: marker/surname dictionaries, confidence table, thresholds.
- `src/classifiers.py`: `normalize_name`, the rule-based detectors
  (`is_malay`, `is_indian`, `is_chinese`, `classify_myanmar`, `classify_nepal`,
  `classify_bangladesh`), `classify_ethnicity_rules_with_confidence`, and the
  batch AI fallback `classify_batch_ai` (its control flow; the external OpenAI
  call is modelled as an oracle outcome).
- `src/main.py`: the `main` driver, phases 2 and 3 (rule pass, AI fallback
  batching, reconciliation and per-batch persistence).

Python strings are Lean `String`s (`List Char` underneath); Python float
confidences are `ℚ` (only exact decimal literals and order comparisons occur
in the source); a Python value that may or may not be a string (a CSV cell)
is `PyVal`.
-/

set_option maxHeartbeats 1000000

/-- A Python runtime value as it can reach `normalize_name` /
`classify_ethnicity_rules_with_confidence` from a CSV cell: a string, or some
non-string value (number, None/NaN, boolean). -/
inductive PyVal where
  | str (s : String)
  | intVal (n : Int)
  | pynone
  | boolVal (b : Bool)
deriving DecidableEq

/-- The ASCII fragment of Python's whitespace class, as matched by `re`'s
`\s` and stripped by `str.strip()`: space, tab, newline, carriage return,
vertical tab, form feed. -/
def isSpace (c : Char) : Bool :=
  c = ' ' || c = '\t' || c = '\n' || c = '\r' || c = '\x0b' || c = '\x0c'

/-- Python `str.upper()`, per character (ASCII range, as exercised by the
repository's uppercase marker dictionaries). This is Lean's `Char.toUpper`. -/
def upStr (l : List Char) : List Char := l.map Char.toUpper

/-- Python `str.strip()`: drop leading and trailing whitespace. -/
def pyStrip (l : List Char) : List Char :=
  ((l.dropWhile isSpace).reverse.dropWhile isSpace).reverse

/-- Python `re.sub(r'\s+', ' ', s)`: replace every maximal run of whitespace
characters by a single space. -/
def collapseWS : List Char → List Char
  | [] => []
  | [c] => if isSpace c then [' '] else [c]
  | c1 :: c2 :: rest =>
    if isSpace c1 && isSpace c2 then collapseWS (c2 :: rest)
    else if isSpace c1 then ' ' :: collapseWS (c2 :: rest)
    else c1 :: collapseWS (c2 :: rest)

/-- Specification-side predicate: no two adjacent characters of the list are
both whitespace (every whitespace run has length at most one). -/
def noAdjSpaceB : List Char → Bool
  | [] => true
  | [_] => true
  | a :: b :: r => !(isSpace a && isSpace b) && noAdjSpaceB (b :: r)

/-- The string branch of `normalize_name` (src/classifiers.py:63-83):
uppercase, strip, collapse internal whitespace runs to single spaces. -/
def normalize_string (s : String) : String :=
  String.mk (collapseWS (pyStrip (upStr s.data)))

/-- `normalize_name` (src/classifiers.py:63-83): non-string input returns
the empty string; a string is uppercased, stripped, and whitespace-collapsed. -/
def normalize_name (v : PyVal) : String :=
  match v with
  | .str s => normalize_string s
  | _ => ""

/-- Python's substring test `pat in l` on character lists. -/
def containsSub (pat : List Char) : List Char → Bool
  | [] => pat.isEmpty
  | c :: t => pat.isPrefixOf (c :: t) || containsSub pat t

/-- `is_malay` (src/classifiers.py:85-98): the normalized name contains
`" BIN "` or `" BINTI "` as a substring (space-surrounded markers). -/
def is_malay (normalized_name : String) : Bool :=
  containsSub " BIN ".data normalized_name.data ||
    containsSub " BINTI ".data normalized_name.data

/-- The marker list of `is_indian` (src/classifiers.py:110). -/
def INDIAN_MARKERS : List String := [" A/P ", " A/L ", " ANAK ", " S/O ", " D/O "]

/-- `is_indian` (src/classifiers.py:100-111). -/
def is_indian (normalized_name : String) : Bool :=
  INDIAN_MARKERS.any (fun marker => containsSub marker.data normalized_name.data)

/-- Python `s.split(' ')`: split on single space characters, keeping empty
segments (so `""` yields `[""]`). -/
def splitSpChars : List Char → List (List Char)
  | [] => [[]]
  | c :: rest =>
    match splitSpChars rest with
    | [] => [[]]
    | g :: gs => if c = ' ' then [] :: g :: gs else (c :: g) :: gs

/-- Python `s.split(' ')` on strings. -/
def pySplitSpace (s : String) : List String :=
  (splitSpChars s.data).map String.mk

/-- Python `s.split()` (no argument): split on whitespace runs, dropping
empty segments (so `""` yields `[]`). -/
def splitWSChars : List Char → List (List Char)
  | [] => []
  | [c] => if isSpace c then [] else [[c]]
  | c1 :: c2 :: rest =>
    if isSpace c1 then splitWSChars (c2 :: rest)
    else if isSpace c2 then [c1] :: splitWSChars (c2 :: rest)
    else
      match splitWSChars (c2 :: rest) with
      | [] => [[c1]]
      | t :: ts => (c1 :: t) :: ts

/-- Python `s.split()` on strings. -/
def pySplitWS (s : String) : List String :=
  (splitWSChars s.data).map String.mk

/-- `MALAYSIAN_CHINESE_SURNAMES` (src/config.py:28-32). -/
def MALAYSIAN_CHINESE_SURNAMES : List String := [
  "TAN", "LIM", "LEE", "NG", "ONG", "WONG", "GOH", "CHUA", "CHAN", "KOH",
  "TEO", "ANG", "YEO", "TAY", "HO", "LOW", "TOH", "SIM", "CHONG", "CHIA"]

/-- `is_chinese` (src/classifiers.py:113-140): split the normalized name on
single spaces and test each part for exact membership in the surname list. -/
def is_chinese (normalized_name : String) (surname_list : List String) : Bool :=
  (pySplitSpace normalized_name).any (fun part => surname_list.contains part)

/-- `MYANMAR_HONORIFICS` (src/config.py:35). -/
def MYANMAR_HONORIFICS : List String :=
  ["U", "DAW", "SAW", "SA", "SHIN", "PU", "PI", "THAMEIN"]

/-- `MYANMAR_NAME_ELEMENTS` (src/config.py:36-40). -/
def MYANMAR_NAME_ELEMENTS : List String := [
  "AUNG", "WIN", "THANT", "ZIN", "MYAT", "HTUN", "PHYO", "KYAW", "HTET",
  "THU", "MIN", "NAING", "TUN", "HLAING", "MOE", "SAN", "MAW", "THEIN",
  "SOE", "MYO", "WAI", "THAN", "LWIN", "MAUNG", "KHIN", "YE", "THIHA"]

/-- `NEPAL_BRAHMIN_SURNAMES` (src/config.py:43-48). -/
def NEPAL_BRAHMIN_SURNAMES : List String := [
  "SHARMA", "ACHARYA", "PAUDEL", "BHATTARAI", "JOSHI", "ARYAL", "SUBEDI",
  "TIWARI", "UPRETI", "DEVKOTA", "DHAKAL", "KOIRALA", "REGMI", "BHATTA",
  "POKHREL", "ADHIKARI", "CHAPAGAIN", "NEUPANE", "KHANAL", "GHIMIRE",
  "LAMSAL", "GIRI", "BHANDARI", "WAGLE"]

/-- `NEPAL_CHHETRI_SURNAMES` (src/config.py:50-55). -/
def NEPAL_CHHETRI_SURNAMES : List String := [
  "KHADKA", "THAPA", "BASNYAT", "BISTA", "RANA", "SHAH", "KUNWAR",
  "RAWAT", "THAKURI", "CHAND", "MAGAR", "BOGATI", "BUDHATHOKI",
  "MAHAT", "RAUT", "KARKI", "BOHARA", "KHATRI", "BUDHA", "ROKA",
  "PANTA", "MALLA", "KHADAYAT", "KATHAYAT"]

/-- `NEPAL_NEWAR_SURNAMES` (src/config.py:57-61). -/
def NEPAL_NEWAR_SURNAMES : List String := [
  "SHRESTHA", "MAHARJAN", "PRADHAN", "DANGOL", "BAJRACHARYA",
  "SHAKYA", "MANANDHAR", "TULADHAR", "JOSHI", "AMATYA", "RAJBHANDARI",
  "NAKARMI", "SUWAL", "CHITRAKAR", "MOOL", "RAJKARNIKAR"]

/-- `NEPAL_ETHNIC_SURNAMES` (src/config.py:63-67). -/
def NEPAL_ETHNIC_SURNAMES : List String := [
  "GURUNG", "TAMANG", "RAI", "LIMBU", "SHERPA", "MAGAR", "LAMA",
  "GHALE", "THAKALI", "BHOTE", "YONJAN", "RUMBA", "JIMBA", "CHEMJONG",
  "PHOMBO", "LAWATI", "LOPCHAN", "THOKAR"]

/-- `NEPAL_DALIT_SURNAMES` (src/config.py:69-73). -/
def NEPAL_DALIT_SURNAMES : List String := [
  "KAMI", "BISHWAKARMA", "B.K.", "DAMAI", "PARIYAR", "SARKI",
  "NEPALI", "GANDHARVA", "SUNAR", "LOHAR", "CHUNARA", "PARKI",
  "KUMAL", "MUSAHAR"]

/-- `BANGLADESH_SURNAMES` (src/config.py:82-88), with the duplicate
`"MOLLA"` entry preserved. -/
def BANGLADESH_SURNAMES : List String := [
  "RAHMAN", "HOSSAIN", "ISLAM", "AHMED", "AHMAD", "KHAN", "ALI",
  "UDDIN", "ALAM", "KARIM", "MIAH", "CHOWDHURY", "SIKDER", "SHEIKH",
  "MOLLA", "BHUIYAN", "SARKAR", "TALUKDAR", "BISWAS", "MANDAL",
  "HASSAN", "HUSSAIN", "BEGUM", "KHANAM", "SULTANA", "SIDDIQUE",
  "AKHTER", "HAQUE", "MOLLA", "FAKIR"]

/-- `BANGLADESH_FEMALE_MARKERS` (src/config.py:90-93). -/
def BANGLADESH_FEMALE_MARKERS : List String := [
  "KHATUN", "BEGUM", "AKTER", "SULTANA", "PARVIN", "NASRIN",
  "YASMIN", "FATIMA", "KHANAM", "NAHAR", "AKHTAR", "JAHAN"]

/-- `BANGLADESH_NAME_PREFIXES` (src/config.py:95-98). -/
def BANGLADESH_NAME_PREFIXES : List String := [
  "MOHAMMAD", "MOHAMMED", "MD", "ABDUL", "ABU", "SHEIKH", "SYED",
  "MIR", "SHAH", "KHONDOKAR", "KHAN"]

/-- `RULE_BASED_CONFIDENCE["MALAY_PATRONYMIC"]` (src/config.py:102). -/
def RB_CONF_MALAY : ℚ := 1.0

/-- `RULE_BASED_CONFIDENCE["INDIAN_PATRONYMIC"]` (src/config.py:103). -/
def RB_CONF_INDIAN : ℚ := 0.95

/-- `RULE_BASED_CONFIDENCE["CHINESE_SURNAME"]` (src/config.py:104). -/
def RB_CONF_CHINESE : ℚ := 0.85

/-- `RULE_BASED_CONFIDENCE["MYANMAR_FULL_PATTERN"]` (src/config.py:105). -/
def RB_CONF_MYANMAR_FULL : ℚ := 0.9

/-- `RULE_BASED_CONFIDENCE["MYANMAR_PARTIAL"]` (src/config.py:106). -/
def RB_CONF_MYANMAR_MID : ℚ := 0.7

/-- `RULE_BASED_CONFIDENCE["NEPAL_CASTE_SURNAME"]` (src/config.py:107). -/
def RB_CONF_NEPAL_CASTE : ℚ := 0.95

/-- `RULE_BASED_CONFIDENCE["BANGLADESH_FULL"]` (src/config.py:108). -/
def RB_CONF_BANGLADESH_FULL : ℚ := 0.9

/-- `RULE_BASED_CONFIDENCE["BANGLADESH_PARTIAL"]` (src/config.py:109). -/
def RB_CONF_BANGLADESH_MID : ℚ := 0.7

/-- Default of `MIN_CONFIDENCE_THRESHOLD` (src/config.py:113-117). The
threshold is environment-configurable, so the classifier below is
parametrised over it; this is the default 0.6. -/
def MIN_CONFIDENCE_THRESHOLD : ℚ := 0.6

/-- Default of `BATCH_SIZE` (src/config.py:12). -/
def BATCH_SIZE : Nat := 10

/-- `classify_myanmar` (src/classifiers.py:167-199). -/
def classify_myanmar (normalized_name : String) : Bool × ℚ :=
  let parts := pySplitWS normalized_name
  let has_honorific := parts.any (fun part => MYANMAR_HONORIFICS.contains part)
  let element_count := (parts.map (fun part => MYANMAR_NAME_ELEMENTS.count part)).sum
  let word_count := parts.length
  let typical_structure := 1 ≤ word_count ∧ word_count ≤ 3
  if has_honorific ∧ 0 < element_count then (true, RB_CONF_MYANMAR_FULL)
  else if has_honorific ∧ typical_structure then (true, 0.75)
  else if 2 ≤ element_count ∧ typical_structure then (true, RB_CONF_MYANMAR_MID)
  else if element_count = 1 ∧ typical_structure ∧ word_count ≤ 2 then (true, 0.65)
  else (false, 0.0)

/-- `classify_nepal` (src/classifiers.py:201-222): first token (left to
right) hitting a surname list decides; Brahmin/Chhetri and Newar/Ethnic give
0.95, Dalit gives 0.9. -/
def classify_nepal_parts : List String → Bool × ℚ
  | [] => (false, 0.0)
  | part :: rest =>
    if part ∈ NEPAL_BRAHMIN_SURNAMES ∨ part ∈ NEPAL_CHHETRI_SURNAMES then
      (true, RB_CONF_NEPAL_CASTE)
    else if part ∈ NEPAL_NEWAR_SURNAMES ∨ part ∈ NEPAL_ETHNIC_SURNAMES then
      (true, RB_CONF_NEPAL_CASTE)
    else if part ∈ NEPAL_DALIT_SURNAMES then (true, 0.9)
    else classify_nepal_parts rest

/-- `classify_nepal` (src/classifiers.py:201-222). -/
def classify_nepal (normalized_name : String) : Bool × ℚ :=
  classify_nepal_parts (pySplitWS normalized_name)

/-- `classify_bangladesh` (src/classifiers.py:224-256). -/
def classify_bangladesh (normalized_name : String) : Bool × ℚ :=
  let parts := pySplitWS normalized_name
  let hasPfx := parts.any (fun part => BANGLADESH_NAME_PREFIXES.contains part)
  let has_surname := parts.any (fun part => BANGLADESH_SURNAMES.contains part)
  let has_female_marker :=
    parts.any (fun part => BANGLADESH_FEMALE_MARKERS.contains part)
  let indicator_count :=
    (if hasPfx then 1 else 0) + (if has_surname then 1 else 0) +
      (if has_female_marker then 1 else 0)
  if 2 ≤ indicator_count then (true, RB_CONF_BANGLADESH_FULL)
  else if has_surname || has_female_marker then (true, 0.8)
  else if hasPfx ∧ 2 ≤ parts.length then (true, RB_CONF_BANGLADESH_MID)
  else (false, 0.0)

/-- `classify_ethnicity_rules_with_confidence` (src/classifiers.py:258-296),
parametrised over the configurable `MIN_CONFIDENCE_THRESHOLD` value `thr`. -/
def classify_ethnicity_rules_with_confidence (thr : ℚ) (full_name : PyVal) :
    String × ℚ :=
  match full_name with
  | .str s =>
    if s = "" then ("Uncertain", 0.0)
    else
      let normalized := normalize_name (.str s)
      if is_malay normalized then ("Malay", RB_CONF_MALAY)
      else if is_indian normalized then ("Indian", RB_CONF_INDIAN)
      else if is_chinese normalized MALAYSIAN_CHINESE_SURNAMES then
        ("Chinese", RB_CONF_CHINESE)
      else
        let myanmar_result := classify_myanmar normalized
        if myanmar_result.1 ∧ thr ≤ myanmar_result.2 then
          ("Myanmar", myanmar_result.2)
        else
          let nepal_result := classify_nepal normalized
          if nepal_result.1 ∧ thr ≤ nepal_result.2 then ("Nepal", nepal_result.2)
          else
            let bangladesh_result := classify_bangladesh normalized
            if bangladesh_result.1 ∧ thr ≤ bangladesh_result.2 then
              ("Bangladesh", bangladesh_result.2)
            else ("Uncertain", 0.0)
  | _ => ("Uncertain", 0.0)

/-- Outcome of one invocation of the external classifier inside
`classify_batch_ai` (src/classifiers.py:300-392): no client configured
(src/classifiers.py:303-305), the API call or response validation raised an
exception (caught at src/classifiers.py:390-392), or a parsed
`BatchNameEthnicityPrediction` whose entries are
`(original_name, ethnicity, confidence)` triples. -/
inductive AIOutcome where
  | noClient
  | exc
  | ok (preds : List (String × String × ℚ))

/-- One execution of the `classify_batch_ai` body (src/classifiers.py:301-392)
for a given external-call outcome. Every failure mode returns a fallback list
in place: missing client, raised exception, and length mismatch all yield
`("Uncertain", 0.0)` for every name of the batch; a validated response of the
right length yields its `(ethnicity, confidence)` pairs in order. -/
def classify_batch_ai_model (o : AIOutcome) (name_batch : List PyVal) :
    List (String × ℚ) :=
  match o with
  | .noClient => List.replicate name_batch.length ("Uncertain", 0.0)
  | .exc => List.replicate name_batch.length ("Uncertain", 0.0)
  | .ok preds =>
    if preds.length ≠ name_batch.length then
      List.replicate name_batch.length ("Uncertain", 0.0)
    else preds.map (fun pred => (pred.2.1, pred.2.2))

/-- Result of a Python call: a normal return or a raised exception. -/
inductive PyResult (α : Type) where
  | ok (a : α)
  | exc
deriving DecidableEq

/-- The `tenacity` `@retry(stop=stop_after_attempt(maxA), wait=wait_fixed(w))`
wrapper (src/classifiers.py:300): call the body; on a raised exception wait
`w` time units and retry, up to `maxA` total attempts, then re-raise.
`body k` is the outcome of attempt number `k`; `remaining` counts attempts
still allowed (including the current one). Returns
(total attempts made, total time units waited, final outcome). -/
def tenacityGo {α : Type} (w : Nat) (body : Nat → PyResult α) (attempt : Nat) :
    Nat → Nat × Nat × PyResult α
  | 0 => (attempt, 0, .exc)
  | remaining + 1 =>
    match body attempt with
    | .ok a => (attempt, 0, .ok a)
    | .exc =>
      if remaining = 0 then (attempt, 0, .exc)
      else
        let r := tenacityGo w body (attempt + 1) remaining
        (r.1, r.2.1 + w, r.2.2)

/-- The decorated `classify_batch_ai` as called by `main`
(src/classifiers.py:298-301): the body under the tenacity wrapper with
`stop_after_attempt(3)` and `wait_fixed(2)`. `oracle k` is the behaviour the
external classifier would exhibit on attempt `k`. The body catches every
exception internally (src/classifiers.py:363-392), so each attempt returns
normally. Returns (attempts made, time waited, outcome). -/
def classify_batch_ai_run (oracle : Nat → AIOutcome) (name_batch : List PyVal) :
    Nat × Nat × PyResult (List (String × ℚ)) :=
  tenacityGo 2 (fun k => .ok (classify_batch_ai_model (oracle k) name_batch)) 1 3

/-- The per-batch reconciliation loop of `main` (src/main.py:112-115):
`df.loc[idx, ...] = (ethnicity, confidence)` for each positional update. -/
def applyUpdates (df : List (String × ℚ)) (ups : List (Nat × (String × ℚ))) :
    List (String × ℚ) :=
  ups.foldl (fun d u => d.set u.1 u.2) df

/-- `range(0, len(l), B)` slicing (src/main.py:104-105), fuel-driven so that
it is structurally recursive; `chunkList` supplies `l.length` as fuel, which
is enough for any positive `B`. -/
def chunkGo {α : Type} (B : Nat) : Nat → List α → List (List α)
  | 0, _ => []
  | _, [] => []
  | fuel + 1, l => l.take B :: chunkGo B fuel (l.drop B)

/-- Partition of the unresolved rows into contiguous batches of at most `B`
(src/main.py:104-105). For `B = 0` Python's `range` would raise; the model
returns no batches (never exercised: `BATCH_SIZE` defaults to 10). -/
def chunkList {α : Type} (B : Nat) (l : List α) : List (List α) :=
  if B = 0 then [] else chunkGo B l.length l

/-- Phase-2 result columns of `main` (src/main.py:81-85): one
`(ethnicity, confidence)` pair per row, from the rule engine. -/
def phase2 (thr : ℚ) (names : List PyVal) : List (String × ℚ) :=
  names.map (classify_ethnicity_rules_with_confidence thr)

/-- The phase-3 routing mask of `main` (src/main.py:95):
label is `Uncertain` or confidence is below the threshold. -/
def isUnresolved (thr : ℚ) (r : String × ℚ) : Bool :=
  r.1 = "Uncertain" || r.2 < thr

/-- `uncertain_indices` zipped with `uncertain_names` (src/main.py:96-97):
the positions selected by the phase-3 mask, each paired with its row's name,
in original row order. The mask tests the columns written by phase 2, which
hold exactly the rule-engine result of the row's name. -/
def unresolvedPairs (thr : ℚ) (names : List PyVal) : List (Nat × PyVal) :=
  names.enum.filter
    (fun p => isUnresolved thr (classify_ethnicity_rules_with_confidence thr p.2))

/-- Observable outcome of the phase-3 batch loop: the final result columns,
the dispatched batch sizes in order, the number of in-loop `save_csv` flushes
(src/main.py:118), and the number of batches skipped by the length-mismatch
guard (src/main.py:119-120). -/
structure Phase3Out where
  df : List (String × ℚ)
  batchSizes : List Nat
  flushes : Nat
  skipped : Nat
deriving DecidableEq

/-- The phase-3 batch loop of `main` (src/main.py:104-120): for the `k`-th
chunk of (row index, name) pairs, call `classify_batch_ai` (whose external
behaviour on that chunk is `aiOut k`), and if the result list matches the
batch length, write each result to its row positionally and flush; otherwise
skip the batch. -/
def runBatches (aiOut : Nat → AIOutcome) (k : Nat) (df : List (String × ℚ)) :
    List (List (Nat × PyVal)) → Phase3Out
  | [] => ⟨df, [], 0, 0⟩
  | chunk :: rest =>
    let batch_results := classify_batch_ai_model (aiOut k) (chunk.map Prod.snd)
    if batch_results.length = chunk.length then
      let out :=
        runBatches aiOut (k + 1)
          (applyUpdates df ((chunk.map Prod.fst).zip batch_results)) rest
      ⟨out.df, chunk.length :: out.batchSizes, out.flushes + 1, out.skipped⟩
    else
      let out := runBatches aiOut (k + 1) df rest
      ⟨out.df, chunk.length :: out.batchSizes, out.flushes, out.skipped + 1⟩

/-- Phases 2 and 3 of `main` (src/main.py:74-120): rule-based pass over every
row, then the AI fallback over the unresolved subset in batches of `B`. -/
def mainPhases (thr : ℚ) (B : Nat) (names : List PyVal)
    (aiOut : Nat → AIOutcome) : Phase3Out :=
  runBatches aiOut 0 (phase2 thr names)
    (chunkList B (unresolvedPairs thr names))

/-! ### Validation of the embedding on concrete inputs from the source and
its documented examples -/

unseal Rat.ofScientific in
theorem validate_rules_malay :
    classify_ethnicity_rules_with_confidence 0.6 (.str "ahmad   bin   abu") =
      ("Malay", 1.0) := by decide

unseal Rat.ofScientific in
theorem validate_rules_chinese :
    classify_ethnicity_rules_with_confidence 0.6 (.str "Siti Tan") =
      ("Chinese", 0.85) := by decide

unseal Rat.ofScientific in
theorem validate_rules_uncertain :
    classify_ethnicity_rules_with_confidence 0.6 (.str "Random Nonmatch Xyzzy") =
      ("Uncertain", 0.0) := by decide

unseal Rat.ofScientific in
theorem validate_rules_myanmar :
    classify_ethnicity_rules_with_confidence 0.6 (.str "U Thant") =
      ("Myanmar", 0.9) := by decide

unseal Rat.ofScientific in
theorem validate_rules_nepal :
    classify_ethnicity_rules_with_confidence 0.6 (.str "Sita Shrestha") =
      ("Nepal", 0.95) := by decide

unseal Rat.ofScientific in
theorem validate_rules_bangladesh :
    classify_ethnicity_rules_with_confidence 0.6 (.str "Mohammad Rahman") =
      ("Bangladesh", 0.9) := by decide

/-- The tenacity model itself does retry when the wrapped body raises: a body
that raises on all of its 3 allowed attempts yields 3 attempts, 2 waits of 2
units each, and a re-raised failure. (Contrast with `classify_batch_ai_run`,
whose body never raises.) -/
theorem validate_tenacity_model_retries :
    tenacityGo 2 (fun _ => (PyResult.exc : PyResult Nat)) 1 3 = (3, 4, .exc) := by
  decide

unseal Rat.ofScientific in
theorem validate_driver_two_rows :
    mainPhases 0.6 10 [PyVal.str "ahmad bin abu", PyVal.str "zzzz qqqq"]
        (fun _ => AIOutcome.ok [("zzzz qqqq", "Chinese", 0.9)]) =
      ⟨[("Malay", 1.0), ("Chinese", 0.9)], [1], 1, 0⟩ := by decide

/-! ### Helper lemmas about the batch loop -/

theorem classify_batch_ai_model_length (o : AIOutcome) (batch : List PyVal) :
    (classify_batch_ai_model o batch).length = batch.length := by
  cases o with
  | noClient => simp [classify_batch_ai_model]
  | exc => simp [classify_batch_ai_model]
  | ok preds =>
    by_cases h : preds.length ≠ batch.length
    · simp [classify_batch_ai_model, h]
    · push_neg at h
      simp [classify_batch_ai_model, h]

theorem runBatches_batchSizes (aiOut : Nat → AIOutcome) (k : Nat)
    (df : List (String × ℚ)) (cs : List (List (Nat × PyVal))) :
    (runBatches aiOut k df cs).batchSizes = cs.map List.length := by
  induction cs generalizing k df with
  | nil => rfl
  | cons chunk rest ih =>
    simp only [runBatches]
    split
    · simp [ih]
    · simp [ih]

theorem runBatches_flushes (aiOut : Nat → AIOutcome) (k : Nat)
    (df : List (String × ℚ)) (cs : List (List (Nat × PyVal))) :
    (runBatches aiOut k df cs).flushes = cs.length := by
  induction cs generalizing k df with
  | nil => rfl
  | cons chunk rest ih =>
    simp only [runBatches]
    rw [if_pos (by rw [classify_batch_ai_model_length]; simp)]
    simp [ih]

theorem runBatches_skipped (aiOut : Nat → AIOutcome) (k : Nat)
    (df : List (String × ℚ)) (cs : List (List (Nat × PyVal))) :
    (runBatches aiOut k df cs).skipped = 0 := by
  induction cs generalizing k df with
  | nil => rfl
  | cons chunk rest ih =>
    simp only [runBatches]
    rw [if_pos (by rw [classify_batch_ai_model_length]; simp)]
    simp [ih]

theorem applyUpdates_getElem_not_mem (df : List (String × ℚ))
    (ups : List (Nat × (String × ℚ))) (i : Nat) (h : i ∉ ups.map Prod.fst) :
    (applyUpdates df ups)[i]? = df[i]? := by
  induction ups generalizing df with
  | nil => rfl
  | cons u rest ih =>
    simp only [List.map_cons, List.mem_cons, not_or] at h
    show (applyUpdates (df.set u.1 u.2) rest)[i]? = df[i]?
    rw [ih _ h.2, List.getElem?_set_ne (Ne.symm h.1)]

theorem applyUpdates_length (df : List (String × ℚ))
    (ups : List (Nat × (String × ℚ))) :
    (applyUpdates df ups).length = df.length := by
  induction ups generalizing df with
  | nil => rfl
  | cons u rest ih =>
    show (applyUpdates (df.set u.1 u.2) rest).length = df.length
    rw [ih, List.length_set]

theorem applyUpdates_const (u : String × ℚ) (ups : List (Nat × (String × ℚ)))
    (df : List (String × ℚ)) (i : Nat) (hall : ∀ p ∈ ups, p.2 = u)
    (hmem : i ∈ ups.map Prod.fst) (hlt : i < df.length) :
    (applyUpdates df ups)[i]? = some u := by
  induction ups generalizing df with
  | nil => simp at hmem
  | cons p rest ih =>
    show (applyUpdates (df.set p.1 p.2) rest)[i]? = some u
    by_cases hr : i ∈ rest.map Prod.fst
    · exact ih (df.set p.1 p.2) (fun q hq => hall q (List.mem_cons_of_mem p hq))
        hr (by rw [List.length_set]; exact hlt)
    · have hip : i = p.1 := by
        rcases List.mem_cons.mp hmem with h | h
        · simpa using h
        · exact absurd h hr
      rw [applyUpdates_getElem_not_mem _ _ _ hr, hip,
        List.getElem?_set_self (hip ▸ hlt), hall p (List.mem_cons_self p rest)]

theorem runBatches_df_not_mem (aiOut : Nat → AIOutcome) (k : Nat)
    (df : List (String × ℚ)) (cs : List (List (Nat × PyVal))) (i : Nat)
    (h : ∀ chunk ∈ cs, i ∉ chunk.map Prod.fst) :
    (runBatches aiOut k df cs).df[i]? = df[i]? := by
  induction cs generalizing k df with
  | nil => rfl
  | cons chunk rest ih =>
    have hch : i ∉ chunk.map Prod.fst := h chunk (List.mem_cons_self chunk rest)
    have hrest : ∀ c ∈ rest, i ∉ c.map Prod.fst :=
      fun c hc => h c (List.mem_cons_of_mem chunk hc)
    simp only [runBatches]
    split
    · show (runBatches aiOut (k + 1) _ rest).df[i]? = df[i]?
      rw [ih _ _ hrest]
      apply applyUpdates_getElem_not_mem
      intro hz
      rcases List.mem_map.mp hz with ⟨p, hp, hpi⟩
      exact hch (hpi ▸ (List.of_mem_zip hp).1)
    · show (runBatches aiOut (k + 1) df rest).df[i]? = df[i]?
      exact ih _ _ hrest

theorem chunkGo_nil {α : Type} (B fuel : Nat) : chunkGo B fuel ([] : List α) = [] := by
  cases fuel <;> rfl

theorem chunkGo_flatten {α : Type} (B : Nat) (hB : B ≠ 0) :
    ∀ (fuel : Nat) (l : List α), l.length ≤ fuel → (chunkGo B fuel l).flatten = l := by
  intro fuel
  induction fuel with
  | zero =>
    intro l hl
    rw [List.length_eq_zero.mp (Nat.le_zero.mp hl)]
    rfl
  | succ n ih =>
    intro l hl
    cases l with
    | nil => rfl
    | cons a t =>
      show ((a :: t).take B :: chunkGo B n ((a :: t).drop B)).flatten = a :: t
      rw [List.flatten_cons, ih ((a :: t).drop B)
        (by rw [List.length_drop]; simp at hl ⊢; omega)]
      exact List.take_append_drop B (a :: t)

theorem chunkList_flatten {α : Type} (B : Nat) (l : List α) (hB : B ≠ 0) :
    (chunkList B l).flatten = l := by
  rw [chunkList, if_neg hB]
  exact chunkGo_flatten B hB l.length l le_rfl

theorem chunkGo_ne_nil {α : Type} (B fuel : Nat) (l : List α) (hl : l ≠ []) :
    chunkGo B (fuel + 1) l = l.take B :: chunkGo B fuel (l.drop B) := by
  obtain ⟨a, t, rfl⟩ := List.exists_cons_of_ne_nil hl
  rfl

theorem chunkList_of_len_23 {α : Type} (l : List α) (h : l.length = 23) :
    chunkList 10 l = [l.take 10, (l.drop 10).take 10, (l.drop 10).drop 10] := by
  have h0 : l ≠ [] := by intro hn; rw [hn] at h; simp at h
  have h1 : l.drop 10 ≠ [] := by
    intro hn
    have := congrArg List.length hn
    rw [List.length_drop, h] at this
    simp at this
  have h2 : (l.drop 10).drop 10 ≠ [] := by
    intro hn
    have := congrArg List.length hn
    rw [List.length_drop, List.length_drop, h] at this
    simp at this
  have e1 : chunkList 10 l = l.take 10 :: chunkGo 10 22 (l.drop 10) := by
    rw [chunkList, if_neg (by decide), h, show (23 : Nat) = 22 + 1 from rfl]
    exact chunkGo_ne_nil 10 22 l h0
  have e2 : chunkGo 10 22 (l.drop 10) =
      (l.drop 10).take 10 :: chunkGo 10 21 ((l.drop 10).drop 10) := by
    rw [show (22 : Nat) = 21 + 1 from rfl]
    exact chunkGo_ne_nil 10 21 _ h1
  have e3 : chunkGo 10 21 ((l.drop 10).drop 10) =
      ((l.drop 10).drop 10).take 10 ::
        chunkGo 10 20 (((l.drop 10).drop 10).drop 10) := by
    rw [show (21 : Nat) = 20 + 1 from rfl]
    exact chunkGo_ne_nil 10 20 _ h2
  have e4 : ((l.drop 10).drop 10).take 10 = (l.drop 10).drop 10 :=
    List.take_of_length_le
      (by rw [List.length_drop, List.length_drop, h]; omega)
  have e5 : ((l.drop 10).drop 10).drop 10 = [] :=
    List.drop_eq_nil_of_le
      (by rw [List.length_drop, List.length_drop, h]; omega)
  rw [e1, e2, e3, e4, e5, chunkGo_nil]

/-! ### C10 -/

/-- C10: for every batch and every behaviour of the external classifier
(any response, an exception, or no configured client), `classify_batch_ai`
returns a list whose length equals the batch length; consequently the
driver's length-mismatch branch never skips a batch. -/
theorem ai_result_length_matches_and_no_skip :
    (∀ (o : AIOutcome) (batch : List PyVal),
        (classify_batch_ai_model o batch).length = batch.length)
    ∧ ∀ (thr : ℚ) (B : Nat) (names : List PyVal) (aiOut : Nat → AIOutcome),
        (mainPhases thr B names aiOut).skipped = 0 :=
  ⟨classify_batch_ai_model_length,
   fun thr B names aiOut =>
     runBatches_skipped aiOut 0 (phase2 thr names)
       (chunkList B (unresolvedPairs thr names))⟩

/-! ### C4 -/

/-- C4: an unresolved set of 23 names with `BATCH_SIZE = 10` is dispatched as
exactly 3 batches of sizes 10, 10, 3; their concatenation is the unresolved
set in its original row order; and exactly 3 in-loop persistence flushes
occur. -/
theorem dispatch_23_names_three_batches (pairs : List (Nat × PyVal))
    (df : List (String × ℚ)) (aiOut : Nat → AIOutcome) (h23 : pairs.length = 23) :
    (runBatches aiOut 0 df (chunkList 10 pairs)).batchSizes = [10, 10, 3]
    ∧ (chunkList 10 pairs).flatten = pairs
    ∧ (runBatches aiOut 0 df (chunkList 10 pairs)).flushes = 3 := by
  refine ⟨?_, chunkList_flatten 10 pairs (by decide), ?_⟩
  · rw [runBatches_batchSizes, chunkList_of_len_23 pairs h23]
    simp [List.length_take, List.length_drop, h23]
  · rw [runBatches_flushes, chunkList_of_len_23 pairs h23]
    rfl

theorem dispatch_23_names_three_batches_witness :
    (runBatches (fun _ => AIOutcome.exc) 0 (List.replicate 23 ("Uncertain", (0 : ℚ)))
        (chunkList 10 ((List.range 23).map (fun i => (i, PyVal.str "X"))))).batchSizes =
      [10, 10, 3]
    ∧ (chunkList 10 ((List.range 23).map (fun i => (i, PyVal.str "X")))).flatten =
        (List.range 23).map (fun i => (i, PyVal.str "X"))
    ∧ (runBatches (fun _ => AIOutcome.exc) 0 (List.replicate 23 ("Uncertain", (0 : ℚ)))
        (chunkList 10 ((List.range 23).map (fun i => (i, PyVal.str "X"))))).flushes = 3 :=
  dispatch_23_names_three_batches ((List.range 23).map (fun i => (i, PyVal.str "X")))
    (List.replicate 23 ("Uncertain", (0 : ℚ))) (fun _ => AIOutcome.exc) (by simp)

/-! ### C5 -/

/-- C5: if the external classifier returns a result list whose length differs
from the batch size, `classify_batch_ai` discards it and yields
`("Uncertain", 0.0)` for every name of the batch, and the driver's positional
update then writes `("Uncertain", 0.0)` to every row of the batch — no proper
subset of the returned results is ever applied. -/
theorem length_mismatch_discards_whole_batch
    (preds : List (String × String × ℚ)) (batch : List PyVal)
    (df : List (String × ℚ)) (idxs : List Nat)
    (hmis : preds.length ≠ batch.length) (hlen : idxs.length = batch.length) :
    classify_batch_ai_model (.ok preds) batch =
      List.replicate batch.length ("Uncertain", 0.0)
    ∧ ∀ i ∈ idxs, i < df.length →
        (applyUpdates df
          (idxs.zip (classify_batch_ai_model (.ok preds) batch)))[i]? =
          some ("Uncertain", 0.0) := by
  have h1 : classify_batch_ai_model (.ok preds) batch =
      List.replicate batch.length ("Uncertain", 0.0) := by
    simp only [classify_batch_ai_model]
    rw [if_pos hmis]
  refine ⟨h1, fun i hi hlt => ?_⟩
  rw [h1]
  apply applyUpdates_const
  · intro p hp
    exact List.eq_of_mem_replicate (List.of_mem_zip hp).2
  · rw [List.map_fst_zip _ _ (by simp [hlen])]
    exact hi
  · exact hlt

theorem length_mismatch_discards_whole_batch_witness :
    classify_batch_ai_model (.ok [("A", "Chinese", 0.9)])
        [PyVal.str "A", PyVal.str "B"] = List.replicate 2 ("Uncertain", 0.0)
    ∧ (applyUpdates [("Malay", 1.0), ("Indian", 0.95)]
        ([0, 1].zip (classify_batch_ai_model (.ok [("A", "Chinese", 0.9)])
          [PyVal.str "A", PyVal.str "B"])))[1]? =
        some (("Uncertain", 0.0) : String × ℚ) :=
  ⟨(length_mismatch_discards_whole_batch [("A", "Chinese", 0.9)]
      [PyVal.str "A", PyVal.str "B"] [("Malay", 1.0), ("Indian", 0.95)] [0, 1]
      (by decide) (by decide)).1,
   (length_mismatch_discards_whole_batch [("A", "Chinese", 0.9)]
      [PyVal.str "A", PyVal.str "B"] [("Malay", 1.0), ("Indian", 0.95)] [0, 1]
      (by decide) (by decide)).2 1 (by decide) (by decide)⟩

/-! ### C1 -/

/-- C1: when every invocation of the external classifier raises, the decorated
`classify_batch_ai` makes exactly ONE attempt (not 3), waits 0 time units
(not 2 between attempts), and returns `("Uncertain", 0.0)` for every name
without raising: the `except Exception` block inside the body swallows the
failure, so the `tenacity` retry decorator never observes it. The second
conjunct shows the attempt count is 1 for every oracle behaviour and batch. -/
theorem classifier_failure_makes_single_attempt :
    classify_batch_ai_run (fun _ => AIOutcome.exc) [PyVal.str "AHMAD"] =
      (1, 0, .ok [("Uncertain", 0.0)])
    ∧ ∀ (oracle : Nat → AIOutcome) (batch : List PyVal),
        (classify_batch_ai_run oracle batch).1 = 1 :=
  ⟨rfl, fun _ _ => rfl⟩

/-! ### C3 -/

theorem not_mem_unresolvedPairs (thr : ℚ) (names : List PyVal) (i : Nat)
    (r : String × ℚ) (hr : (phase2 thr names)[i]? = some r)
    (hres : isUnresolved thr r = false) :
    i ∉ (unresolvedPairs thr names).map Prod.fst := by
  intro hmem
  rcases List.mem_map.mp hmem with ⟨p, hp, hpi⟩
  rcases List.mem_filter.mp hp with ⟨he, hu⟩
  obtain ⟨j, v⟩ := p
  have hji : j = i := hpi
  subst hji
  obtain ⟨hjl, hjv⟩ := List.mem_enum he
  have hrv : r = classify_ethnicity_rules_with_confidence thr v := by
    have : (phase2 thr names)[j]? =
        some (classify_ethnicity_rules_with_confidence thr v) := by
      rw [phase2, List.getElem?_map, List.getElem?_eq_getElem hjl, ← hjv]
      rfl
    rw [hr] at this
    exact Option.some.inj this
  rw [← hrv] at hu
  rw [hu] at hres
  simp at hres

/-- C3: a row whose rule-based result is resolved (label is not `Uncertain`
and confidence is at least the threshold) keeps exactly its rule-engine label
and confidence after the AI-fallback phase, for every batch size and every
behaviour of the external classifier: the driver only updates rows selected
by the unresolved mask. -/
theorem resolved_rows_not_overwritten (thr : ℚ) (B : Nat) (names : List PyVal)
    (aiOut : Nat → AIOutcome) (i : Nat) (r : String × ℚ)
    (hr : (phase2 thr names)[i]? = some r)
    (hlab : r.1 ≠ "Uncertain") (hconf : thr ≤ r.2) :
    (mainPhases thr B names aiOut).df[i]? = some r := by
  have hres : isUnresolved thr r = false := by
    simp only [isUnresolved, Bool.or_eq_false_iff, decide_eq_false_iff_not]
    exact ⟨hlab, not_lt.mpr hconf⟩
  have hni : i ∉ (unresolvedPairs thr names).map Prod.fst :=
    not_mem_unresolvedPairs thr names i r hr hres
  have hall : ∀ chunk ∈ chunkList B (unresolvedPairs thr names),
      i ∉ chunk.map Prod.fst := by
    intro chunk hc hmemc
    rcases List.mem_map.mp hmemc with ⟨p, hp, hpi⟩
    by_cases hB : B = 0
    · rw [hB] at hc
      simp [chunkList] at hc
    · have hpin : p ∈ unresolvedPairs thr names := by
        rw [← chunkList_flatten B (unresolvedPairs thr names) hB]
        exact List.mem_flatten.mpr ⟨chunk, hc, hp⟩
      exact hni (List.mem_map.mpr ⟨p, hpin, hpi⟩)
  show (runBatches aiOut 0 (phase2 thr names)
      (chunkList B (unresolvedPairs thr names))).df[i]? = some r
  rw [runBatches_df_not_mem aiOut 0 (phase2 thr names) _ i hall, hr]

unseal Rat.ofScientific in
theorem resolved_rows_not_overwritten_witness :
    (mainPhases 0.6 10 [PyVal.str "ali bin abu", PyVal.str "zzzz qqqq"]
        (fun _ => AIOutcome.ok [("zzzz qqqq", "Chinese", 0.9)])).df[0]? =
      some (("Malay", 1.0) : String × ℚ) :=
  resolved_rows_not_overwritten 0.6 10
    [PyVal.str "ali bin abu", PyVal.str "zzzz qqqq"]
    (fun _ => AIOutcome.ok [("zzzz qqqq", "Chinese", 0.9)]) 0 ("Malay", 1.0)
    (by decide) (by decide) (by decide)

/-! ### C2 and C6 -/

theorem classify_malay_of_is_malay (thr : ℚ) (s : String)
    (hm : is_malay (normalize_name (.str s)) = true) :
    classify_ethnicity_rules_with_confidence thr (.str s) =
      ("Malay", RB_CONF_MALAY) := by
  have hs : ¬(s = "") := by
    intro h
    rw [h] at hm
    exact absurd hm (by decide)
  simp only [classify_ethnicity_rules_with_confidence]
  rw [if_neg hs, if_pos hm]

unseal Rat.ofScientific in
/-- C2 counterexample: `"BINTI"` occurs as a standalone (leading) token of
the normalized form of `"binti zzz"`, yet the rule engine returns
`(Uncertain, 0.0)`, not `(Malay, 1.0)`: `is_malay` looks for `" BINTI "`
with a space on each side, so a marker in first or last position never
matches. -/
theorem leading_binti_token_not_malay :
    ("BINTI" ∈ pySplitWS (normalize_name (.str "binti zzz")))
    ∧ classify_ethnicity_rules_with_confidence 0.6 (.str "binti zzz") =
        ("Uncertain", 0.0) := by decide

/-- C2 (amended): for every input name in which `BIN` or `BINTI` occurs as
an interior token — that is, the normalized name contains `" BIN "` or
`" BINTI "` with a space on each side, which is case- and
whitespace-insensitive in the raw input — the rule engine returns
`(Malay, 1.0)`. -/
theorem interior_bin_binti_gives_malay (thr : ℚ) (s : String)
    (hm : is_malay (normalize_name (.str s)) = true) :
    classify_ethnicity_rules_with_confidence thr (.str s) = ("Malay", 1.0) :=
  classify_malay_of_is_malay thr s hm

theorem interior_bin_binti_gives_malay_witness :
    classify_ethnicity_rules_with_confidence 0.6 (.str "ahmad   bin   abu") =
      ("Malay", 1.0) :=
  interior_bin_binti_gives_malay 0.6 "ahmad   bin   abu" (by decide)

unseal Rat.ofScientific in
/-- C6 counterexample: `"bin tan"` contains the standalone token `"BIN"` and
the Chinese-surname token `"TAN"`, yet the rule engine returns
`(Chinese, 0.85)`: with the marker in leading position the Malay detector
does not fire, so the Chinese detector wins. -/
theorem leading_bin_with_chinese_surname_gives_chinese :
    ("BIN" ∈ pySplitWS (normalize_name (.str "bin tan")))
    ∧ ("TAN" ∈ MALAYSIAN_CHINESE_SURNAMES)
    ∧ classify_ethnicity_rules_with_confidence 0.6 (.str "bin tan") =
        ("Chinese", 0.85) := by decide

/-- C6 (amended): for every input name on which the Malay detector fires
(`BIN`/`BINTI` as an interior, space-surrounded token) and which also
contains a token equal to an entry of the Chinese-surname dictionary, the
rule engine returns `(Malay, 1.0)`, never Chinese: the detectors run in the
fixed order Malay, Indian, Chinese, Myanmar, Nepal, Bangladesh and the first
match wins. -/
theorem malay_marker_beats_chinese_surname (thr : ℚ) (s : String)
    (hm : is_malay (normalize_name (.str s)) = true)
    (_hc : is_chinese (normalize_name (.str s)) MALAYSIAN_CHINESE_SURNAMES =
      true) :
    classify_ethnicity_rules_with_confidence thr (.str s) = ("Malay", 1.0) :=
  classify_malay_of_is_malay thr s hm

theorem malay_marker_beats_chinese_surname_witness :
    classify_ethnicity_rules_with_confidence 0.6 (.str "Ahmad bin Tan") =
      ("Malay", 1.0) :=
  malay_marker_beats_chinese_surname 0.6 "Ahmad bin Tan" (by decide) (by decide)

/-! ### C7 -/

/-- C7: for every name and every threshold value, if the rule engine returns
label Myanmar, Nepal or Bangladesh then the returned confidence is at least
the threshold; and if the three Malaysian detectors do not match and every
extended detector that matches does so strictly below the threshold, the
rule engine returns `(Uncertain, 0.0)`. -/
theorem extended_labels_gated_by_threshold (thr : ℚ) (v : PyVal) :
    (((classify_ethnicity_rules_with_confidence thr v).1 = "Myanmar"
      ∨ (classify_ethnicity_rules_with_confidence thr v).1 = "Nepal"
      ∨ (classify_ethnicity_rules_with_confidence thr v).1 = "Bangladesh") →
      thr ≤ (classify_ethnicity_rules_with_confidence thr v).2)
    ∧ (∀ s, v = PyVal.str s →
        is_malay (normalize_name (.str s)) = false →
        is_indian (normalize_name (.str s)) = false →
        is_chinese (normalize_name (.str s)) MALAYSIAN_CHINESE_SURNAMES =
          false →
        ((classify_myanmar (normalize_name (.str s))).1 = true →
          (classify_myanmar (normalize_name (.str s))).2 < thr) →
        ((classify_nepal (normalize_name (.str s))).1 = true →
          (classify_nepal (normalize_name (.str s))).2 < thr) →
        ((classify_bangladesh (normalize_name (.str s))).1 = true →
          (classify_bangladesh (normalize_name (.str s))).2 < thr) →
        classify_ethnicity_rules_with_confidence thr v = ("Uncertain", 0.0)) := by
  constructor
  · cases v with
    | str s =>
      by_cases hs : s = ""
      · subst hs
        intro h
        simp [classify_ethnicity_rules_with_confidence] at h
      · simp only [classify_ethnicity_rules_with_confidence]
        rw [if_neg hs]
        split_ifs with h1 h2 h3 h4 h5 h6 <;> intro h
        · exact absurd h (by decide)
        · exact absurd h (by decide)
        · exact absurd h (by decide)
        · exact h4.2
        · exact h5.2
        · exact h6.2
        · exact absurd h (by decide)
    | intVal n => intro h; simp [classify_ethnicity_rules_with_confidence] at h
    | pynone => intro h; simp [classify_ethnicity_rules_with_confidence] at h
    | boolVal b => intro h; simp [classify_ethnicity_rules_with_confidence] at h
  · intro s hv hm hi hc hmy hnp hbd
    subst hv
    by_cases hs : s = ""
    · subst hs
      rfl
    · simp only [classify_ethnicity_rules_with_confidence]
      rw [if_neg hs, if_neg (by simp [hm]), if_neg (by simp [hi]),
        if_neg (by simp [hc]),
        if_neg (fun g => absurd g.2 (not_le.mpr (hmy g.1))),
        if_neg (fun g => absurd g.2 (not_le.mpr (hnp g.1))),
        if_neg (fun g => absurd g.2 (not_le.mpr (hbd g.1)))]

unseal Rat.ofScientific in
theorem extended_labels_gated_by_threshold_witness :
    ((0.6 : ℚ) ≤
      (classify_ethnicity_rules_with_confidence 0.6 (.str "AUNG WIN")).2)
    ∧ classify_ethnicity_rules_with_confidence 0.6 (.str "QQQQ WWWW") =
        ("Uncertain", 0.0) :=
  ⟨(extended_labels_gated_by_threshold 0.6 (.str "AUNG WIN")).1 (by decide),
   (extended_labels_gated_by_threshold 0.6 (.str "QQQQ WWWW")).2 "QQQQ WWWW"
     rfl (by decide) (by decide) (by decide) (by decide) (by decide)
     (by decide)⟩

/-! ### C8 and C9: character-level lemmas -/

theorem char_toNat_ofNat_valid (m : Nat) (h : m.isValidChar) :
    (Char.ofNat m).toNat = m := by
  unfold Char.ofNat
  rw [dif_pos h]
  unfold Char.ofNatAux Char.toNat
  simp [UInt32.toNat, UInt32.ofNatCore]

theorem toUpper_idem (c : Char) : c.toUpper.toUpper = c.toUpper := by
  unfold Char.toUpper
  by_cases h : c.toNat ≥ 97 ∧ c.toNat ≤ 122
  · rw [if_pos h]
    have hv : (Char.ofNat (c.toNat - 32)).toNat = c.toNat - 32 := by
      apply char_toNat_ofNat_valid
      left
      omega
    rw [if_neg]
    omega
  · rw [if_neg h, if_neg h]

theorem mem_collapseWS : ∀ (l : List Char) (c : Char), c ∈ collapseWS l →
    (c ∈ l ∧ isSpace c = false) ∨ c = ' '
  | [], c, h => by simp [collapseWS] at h
  | [a], c, h => by
    simp only [collapseWS] at h
    split at h
    · right
      simpa using h
    · next ha =>
      left
      rcases List.mem_singleton.mp h with rfl
      exact ⟨List.mem_singleton_self _, by simpa using ha⟩
  | a :: b :: rest, c, h => by
    simp only [collapseWS] at h
    split at h
    · rcases mem_collapseWS (b :: rest) c h with ⟨hm, hs⟩ | hsp
      · exact Or.inl ⟨List.mem_cons_of_mem a hm, hs⟩
      · exact Or.inr hsp
    · split at h
      · rcases List.mem_cons.mp h with rfl | h2
        · exact Or.inr rfl
        · rcases mem_collapseWS (b :: rest) c h2 with ⟨hm, hs⟩ | hsp
          · exact Or.inl ⟨List.mem_cons_of_mem a hm, hs⟩
          · exact Or.inr hsp
      · next hab ha =>
        rcases List.mem_cons.mp h with rfl | h2
        · exact Or.inl ⟨List.mem_cons_self _ _, by simpa using ha⟩
        · rcases mem_collapseWS (b :: rest) c h2 with ⟨hm, hs⟩ | hsp
          · exact Or.inl ⟨List.mem_cons_of_mem a hm, hs⟩
          · exact Or.inr hsp

theorem collapseWS_head : ∀ (l : List Char),
    (collapseWS l).head? = l.head?.map (fun c => if isSpace c then ' ' else c)
  | [] => rfl
  | [a] => by
    simp only [collapseWS]
    split
    · next ha => simp [ha]
    · next ha => simp [Bool.not_eq_true] at ha; simp [ha]
  | a :: b :: rest => by
    simp only [collapseWS]
    split
    · next hab =>
      rw [collapseWS_head (b :: rest)]
      rcases Bool.and_eq_true_iff.mp hab with ⟨ha, hb⟩
      simp [ha, hb]
    · split
      · next hab ha => simp [ha]
      · next hab ha => simp [Bool.not_eq_true] at ha; simp [ha]

theorem collapseWS_ne_nil (l : List Char) (h : l ≠ []) : collapseWS l ≠ [] := by
  intro hc
  have hh := collapseWS_head l
  rw [hc] at hh
  cases l with
  | nil => exact h rfl
  | cons a t => simp at hh

theorem getLast?_cons_ne {α : Type} (a : α) (l : List α) (h : l ≠ []) :
    (a :: l).getLast? = l.getLast? := by
  cases l with
  | nil => exact absurd rfl h
  | cons b t => exact List.getLast?_cons_cons

theorem collapseWS_getLast : ∀ (l : List Char),
    (collapseWS l).getLast? =
      l.getLast?.map (fun c => if isSpace c then ' ' else c)
  | [] => rfl
  | [a] => by
    simp only [collapseWS]
    split
    · next ha => simp [ha]
    · next ha => simp [Bool.not_eq_true] at ha; simp [ha]
  | a :: b :: rest => by
    have hrec := collapseWS_getLast (b :: rest)
    have hlast : (a :: b :: rest).getLast? = (b :: rest).getLast? :=
      List.getLast?_cons_cons
    simp only [collapseWS]
    split
    · rw [hrec, hlast]
    · split
      · rw [getLast?_cons_ne ' ' _ (collapseWS_ne_nil (b :: rest) (by simp)),
          hrec, hlast]
      · rw [getLast?_cons_ne a _ (collapseWS_ne_nil (b :: rest) (by simp)),
          hrec, hlast]

theorem noAdjSpaceB_cons_of (a : Char) (l : List Char)
    (h1 : ∀ b, l.head? = some b → (isSpace a && isSpace b) = false)
    (h2 : noAdjSpaceB l = true) : noAdjSpaceB (a :: l) = true := by
  cases l with
  | nil => rfl
  | cons b t =>
    show (!(isSpace a && isSpace b) && noAdjSpaceB (b :: t)) = true
    rw [h1 b rfl, h2]
    rfl

theorem collapseWS_noAdj : ∀ (l : List Char), noAdjSpaceB (collapseWS l) = true
  | [] => rfl
  | [a] => by
    simp only [collapseWS]
    split <;> rfl
  | a :: b :: rest => by
    simp only [collapseWS]
    split
    · exact collapseWS_noAdj (b :: rest)
    · split
      · next hab ha =>
        have hb : isSpace b = false := by
          rw [ha] at hab
          simpa using hab
        apply noAdjSpaceB_cons_of
        · intro x hx
          rw [collapseWS_head (b :: rest)] at hx
          simp [hb] at hx
          rw [← hx, hb]
          simp
        · exact collapseWS_noAdj (b :: rest)
      · next hab ha =>
        have ha2 : isSpace a = false := by simpa using ha
        apply noAdjSpaceB_cons_of
        · intro x hx
          rw [ha2]
          simp
        · exact collapseWS_noAdj (b :: rest)

theorem collapseWS_space_char (l : List Char) (c : Char) (hc : c ∈ collapseWS l)
    (hs : isSpace c = true) : c = ' ' := by
  rcases mem_collapseWS l c hc with ⟨_, hns⟩ | h
  · rw [hns] at hs
    exact absurd hs (by simp)
  · exact h

theorem head?_dropWhile_not (p : Char → Bool) :
    ∀ (l : List Char) (c : Char), (l.dropWhile p).head? = some c → p c = false
  | [], c, h => by simp [List.dropWhile] at h
  | a :: t, c, h => by
    rw [List.dropWhile_cons] at h
    split at h
    · exact head?_dropWhile_not p t c h
    · next ha =>
      simp at h
      rw [← h]
      simpa using ha

theorem getLast?_dropWhile_ne (p : Char → Bool) (l : List Char)
    (h : l.dropWhile p ≠ []) : (l.dropWhile p).getLast? = l.getLast? := by
  obtain ⟨t, ht⟩ := List.dropWhile_suffix (l := l) p
  conv_rhs => rw [← ht]
  rw [List.getLast?_append]
  cases hx : (l.dropWhile p).getLast? with
  | none =>
    rw [List.getLast?_eq_none_iff] at hx
    exact absurd hx h
  | some x => rfl

theorem pyStrip_head_not_space (l : List Char) (c : Char)
    (h : (pyStrip l).head? = some c) : isSpace c = false := by
  rw [pyStrip, List.head?_reverse] at h
  have hne : (l.dropWhile isSpace).reverse.dropWhile isSpace ≠ [] := by
    intro hn
    rw [hn] at h
    simp at h
  rw [getLast?_dropWhile_ne isSpace _ hne, List.getLast?_reverse] at h
  exact head?_dropWhile_not isSpace l c h

theorem pyStrip_getLast_not_space (l : List Char) (c : Char)
    (h : (pyStrip l).getLast? = some c) : isSpace c = false := by
  rw [pyStrip, List.getLast?_reverse] at h
  exact head?_dropWhile_not isSpace _ c h

theorem mem_pyStrip (l : List Char) (c : Char) (h : c ∈ pyStrip l) : c ∈ l := by
  rw [pyStrip, List.mem_reverse] at h
  have h2 := (List.dropWhile_suffix (l := (l.dropWhile isSpace).reverse)
    isSpace).subset h
  rw [List.mem_reverse] at h2
  exact (List.dropWhile_suffix (l := l) isSpace).subset h2

theorem normalize_string_data (s : String) :
    (normalize_string s).data = collapseWS (pyStrip (upStr s.data)) := rfl

theorem normalize_string_uppercase (s : String) (c : Char)
    (h : c ∈ (normalize_string s).data) : c.toUpper = c := by
  rw [normalize_string_data] at h
  rcases mem_collapseWS _ c h with ⟨hm, _⟩ | rfl
  · rcases List.mem_map.mp (mem_pyStrip _ c hm) with ⟨c0, _, rfl⟩
    exact toUpper_idem c0
  · rfl

theorem normalize_string_head_not_space (s : String) (c : Char)
    (h : (normalize_string s).data.head? = some c) : isSpace c = false := by
  rw [normalize_string_data, collapseWS_head] at h
  cases hx : (pyStrip (upStr s.data)).head? with
  | none => rw [hx] at h; simp at h
  | some b =>
    have hb : isSpace b = false := pyStrip_head_not_space _ b hx
    rw [hx] at h
    simp [hb] at h
    rw [← h]
    exact hb

theorem normalize_string_getLast_not_space (s : String) (c : Char)
    (h : (normalize_string s).data.getLast? = some c) : isSpace c = false := by
  rw [normalize_string_data, collapseWS_getLast] at h
  cases hx : (pyStrip (upStr s.data)).getLast? with
  | none => rw [hx] at h; simp at h
  | some b =>
    have hb : isSpace b = false := pyStrip_getLast_not_space _ b hx
    rw [hx] at h
    simp [hb] at h
    rw [← h]
    exact hb

theorem normalize_string_noAdj (s : String) :
    noAdjSpaceB (normalize_string s).data = true :=
  collapseWS_noAdj _

theorem normalize_string_space_char (s : String) (c : Char)
    (hc : c ∈ (normalize_string s).data) (hs : isSpace c = true) : c = ' ' :=
  collapseWS_space_char _ c hc hs

/-! ### C8 -/

/-- C8: `normalize_name` is total over arbitrary CSV-cell values and never
raises: every non-string input yields the empty string, and for every string
input the result is uppercase (each character is fixed by `toUpper`), has no
leading or trailing whitespace, and has every internal whitespace run
collapsed to a single space (no two adjacent whitespace characters, and
every whitespace character is the plain space). -/
theorem normalize_name_total_contract :
    (∀ v : PyVal, (∀ s, v ≠ PyVal.str s) → normalize_name v = "")
    ∧ ∀ s : String,
        (∀ c ∈ (normalize_name (.str s)).data, c.toUpper = c)
        ∧ (∀ c, (normalize_name (.str s)).data.head? = some c →
            isSpace c = false)
        ∧ (∀ c, (normalize_name (.str s)).data.getLast? = some c →
            isSpace c = false)
        ∧ noAdjSpaceB (normalize_name (.str s)).data = true
        ∧ (∀ c ∈ (normalize_name (.str s)).data, isSpace c = true → c = ' ') := by
  constructor
  · intro v hv
    cases v with
    | str s => exact absurd rfl (hv s)
    | intVal n => rfl
    | pynone => rfl
    | boolVal b => rfl
  · intro s
    exact ⟨fun c hc => normalize_string_uppercase s c hc,
      fun c hc => normalize_string_head_not_space s c hc,
      fun c hc => normalize_string_getLast_not_space s c hc,
      normalize_string_noAdj s,
      fun c hc hs => normalize_string_space_char s c hc hs⟩

theorem normalize_name_total_contract_witness :
    normalize_name (PyVal.intVal 7) = ""
    ∧ Char.toUpper 'A' = 'A'
    ∧ isSpace 'A' = false :=
  ⟨normalize_name_total_contract.1 (PyVal.intVal 7)
      (fun s h => PyVal.noConfusion h),
   (normalize_name_total_contract.2 " a  b ").1 'A' (by decide),
   (normalize_name_total_contract.2 " a  b ").2.1 'A' (by decide)⟩

/-! ### C9 -/

theorem dropWhile_eq_self_of_head (p : Char → Bool) (l : List Char)
    (h : ∀ c, l.head? = some c → p c = false) : l.dropWhile p = l := by
  cases l with
  | nil => rfl
  | cons a t =>
    rw [List.dropWhile_cons, if_neg]
    simp [h a rfl]

theorem pyStrip_eq_self (l : List Char)
    (h1 : ∀ c, l.head? = some c → isSpace c = false)
    (h2 : ∀ c, l.getLast? = some c → isSpace c = false) : pyStrip l = l := by
  rw [pyStrip, dropWhile_eq_self_of_head isSpace l h1,
    dropWhile_eq_self_of_head isSpace l.reverse
      (fun c hc => h2 c (by rwa [List.head?_reverse] at hc)),
    List.reverse_reverse]

theorem collapseWS_eq_self : ∀ (l : List Char),
    noAdjSpaceB l = true → (∀ c ∈ l, isSpace c = true → c = ' ') →
    collapseWS l = l
  | [], _, _ => rfl
  | [a], _, hsp => by
    simp only [collapseWS]
    split
    · next ha => rw [hsp a (List.mem_singleton_self a) ha]
    · rfl
  | a :: b :: rest, hna, hsp => by
    have hna2 : (!(isSpace a && isSpace b)) = true ∧
        noAdjSpaceB (b :: rest) = true := by
      simpa [noAdjSpaceB, Bool.and_eq_true_iff] using hna
    have hrest : collapseWS (b :: rest) = b :: rest :=
      collapseWS_eq_self (b :: rest) hna2.2
        (fun c hc hs => hsp c (List.mem_cons_of_mem a hc) hs)
    simp only [collapseWS]
    split
    · next hab => simp [hab] at hna2
    · split
      · next hab ha =>
        rw [hrest, hsp a (List.mem_cons_self a _) ha]
      · next hab ha =>
        rw [hrest]

theorem upStr_eq_self (l : List Char) (h : ∀ c ∈ l, c.toUpper = c) :
    upStr l = l := by
  rw [upStr]
  conv_rhs => rw [← List.map_id l]
  exact List.map_congr_left h

/-- C9: normalization is idempotent: for every string `x`,
`normalize_name(normalize_name(x)) = normalize_name(x)`. -/
theorem normalize_name_idempotent (s : String) :
    normalize_name (.str (normalize_name (.str s))) = normalize_name (.str s) := by
  show normalize_string (normalize_string s) = normalize_string s
  have hup : upStr (normalize_string s).data = (normalize_string s).data :=
    upStr_eq_self _ (fun c hc => normalize_string_uppercase s c hc)
  have hstrip : pyStrip (normalize_string s).data = (normalize_string s).data :=
    pyStrip_eq_self _ (fun c hc => normalize_string_head_not_space s c hc)
      (fun c hc => normalize_string_getLast_not_space s c hc)
  have hcol : collapseWS (normalize_string s).data = (normalize_string s).data :=
    collapseWS_eq_self _ (normalize_string_noAdj s)
      (fun c hc hs => normalize_string_space_char s c hc hs)
  show String.mk (collapseWS (pyStrip (upStr (normalize_string s).data))) =
    normalize_string s
  rw [hup, hstrip, hcol]
